import Mathlib

/-!
Verification of the gowac request-and-classify pipeline.

Shallow embedding of `src/main.go` and `src/utils/pipeline.go`:

* `Options` and `Options.Validate` embed the CLI option record and its
  startup validation (main.go 20-65).  The stdin check at lines 39-47 is
  process I/O and applies only when the URL-file argument is `-`; it is
  elided (equivalently, a named file is used).
* `setupRequest`, `requestURL`, `send` embed the Requester (main.go
  101-136, 212-229).  The Go standard library transport
  (`http.NewRequestWithContext` failure and `http.DefaultClient.Do`) is an
  external collaborator and is passed in as a `Net` oracle.  The
  assignment to `http.DefaultClient.CheckRedirect` performed inside
  `setupRequest` (lines 117-119) is recorded in `SetupResult`.
* `parseRecord` embeds one iteration of the Classifier loop `parse`
  (main.go 160-204): the printed lines, the number of `Body.Close()`
  calls made (line 188), and the record forwarded to the out channel.
* `cleanupRecord` embeds one iteration of `cleanup` (main.go 144-148).
* `MergeStep` / `MergeRun` embed `utils.Merge` (pipeline.go 16-37) as a
  nondeterministic small-step system: one `send` goroutine per input
  channel moves the head of its channel to the output, and the closing
  goroutine closes the output once the WaitGroup counter has reached
  zero, i.e. once every input is drained and closed.
-/

/-- Embeds the `Options` struct (main.go 20-36).  `Threads` is a Go
`uint8`, `WaitSeconds` a `uint16`, `Status` a Go `int`; the numeric range
checks live in `Options.Validate`. -/
structure Options where
  Threads : Nat
  Cookie : String
  Auth : String
  WaitSeconds : Nat
  Status : Int
  Redirect : String
  Body : String
deriving DecidableEq, Repr

/-- Embeds `Options.Validate` (main.go 38-65), returning `some msg` for the
error returned and `none` for success.  The stdin status check (lines
39-47) is I/O on the running process and is skipped exactly as Go skips it
when the URL-file argument is not `-`. -/
def Options.Validate (o : Options) : Option String :=
  if o.Body.length = 0 ∧ o.Redirect.length = 0 ∧ o.Status = 0 then
    some "[!] Must supply either status, redirect or body arguments to check"
  else if o.Threads < 1 ∨ o.Threads > 100 then
    some "[!] Threads can be between 1 and 100"
  else if o.WaitSeconds < 1 ∨ o.WaitSeconds > 900 then
    some "[!] Wait can be between 1 and 900 (15mins)"
  else if o.Status < 100 ∨ o.Status > 999 then
    some "[!] Status is invalid"
  else
    none

/-- Errors a request can carry.  `deadlineExceeded` stands for Go's
`context.DeadlineExceeded` (the only error `parse` distinguishes, via
`errors.Is`); every other error is `other msg`. -/
inductive HttpError where
  | deadlineExceeded : HttpError
  | other : String → HttpError
deriving DecidableEq, Repr

/-- The part of an `*http.Response` the pipeline reads. `location` models
`Header.Get "Location"`, which returns the empty string when the header is
absent; `bodyRead` models the outcome of `io.ReadAll` on the body
(`none` = read error). -/
structure HttpResponse where
  statusCode : Int
  location : String
  bodyRead : Option String
deriving DecidableEq, Repr

/-- Headers applied to the outgoing request by `setupRequest`. -/
structure RequestSetup where
  cookieHeader : Option String
  basicAuth : Option (String × String)
deriving DecidableEq, Repr

/-- Result of `setupRequest`: the Go error-or-request outcome, plus
whether the call executed the assignment to
`http.DefaultClient.CheckRedirect` (main.go 117-119) — the statement is
reached whenever the function does not return early at the auth check. -/
structure SetupResult where
  result : Except String RequestSetup
  assignsCheckRedirect : Bool
deriving Repr

/-- Embeds `strings.Cut (s, c)` on character lists: split at the first
occurrence of `c`, returning `none` when `c` does not occur. -/
def cutChars (c : Char) : List Char → Option (List Char × List Char)
  | [] => none
  | a :: rest =>
    if a = c then some ([], rest)
    else (cutChars c rest).map (fun p => (a :: p.1, p.2))

/-- Embeds `strings.Cut (Auth, colon)` from `setupRequest` (main.go 109). -/
def stringsCutColon (s : String) : Option (String × String) :=
  (cutChars ':' s.data).map (fun p => (String.mk p.1, String.mk p.2))

/-- Embeds `setupRequest` (main.go 101-122).  The Go error string contains
single quotes around username:password; they are elided here. -/
def setupRequest (opts : Options) : SetupResult :=
  let cookieHeader := if 0 < opts.Cookie.length then some opts.Cookie else none
  if 0 < opts.Auth.length then
    match stringsCutColon opts.Auth with
    | none =>
      { result := Except.error "auth value is invalid, must be provided as username:password"
        assignsCheckRedirect := false }
    | some (username, pass) =>
      { result := Except.ok { cookieHeader := cookieHeader, basicAuth := some (username, pass) }
        assignsCheckRedirect := true }
  else
    { result := Except.ok { cookieHeader := cookieHeader, basicAuth := none }
      assignsCheckRedirect := true }

/-- The external Go standard library transport: `newRequest` is the
error outcome of `http.NewRequestWithContext` (`none` = request built
fine), `doReq` is `http.DefaultClient.Do`, returning Go's
`(*http.Response, error)` pair verbatim. -/
structure Net where
  newRequest : String → Option HttpError
  doReq : String → RequestSetup → Option HttpResponse × Option HttpError

/-- Embeds `requestURL` (main.go 125-136) as the `(*http.Response, error)`
pair it returns: `(nil, err)` when building the request fails, `(nil, err)`
when `setupRequest` fails, and `http.DefaultClient.Do`'s pair otherwise. -/
def requestURL (net : Net) (url : String) (opts : Options) :
    Option HttpResponse × Option HttpError :=
  match net.newRequest url with
  | some e => (none, some e)
  | none =>
    match (setupRequest opts).result with
    | Except.error msg => (none, some (HttpError.other msg))
    | Except.ok setup => net.doReq url setup

/-- Embeds the `PipelineContext` struct (main.go 68-72). -/
structure PipelineContext where
  URL : String
  Response : Option HttpResponse
  Error : Option HttpError
deriving DecidableEq, Repr

/-- Embeds `send` (main.go 212-229): one record per URL drawn from the
worker's share of the url channel, fields taken from `requestURL`. -/
def send (net : Net) (urls : List String) (opts : Options) : List PipelineContext :=
  urls.map fun url =>
    match requestURL net url opts with
    | (resp, err) => { URL := url, Response := resp, Error := err }

/-- Number of assignments to `http.DefaultClient.CheckRedirect` performed
while a worker sends the given URLs: `requestURL` calls `setupRequest`
once per request (main.go 132), and the assignment at lines 117-119 runs
whenever `setupRequest` reaches it. -/
def checkRedirectAssignments (net : Net) (urls : List String) (opts : Options) : Nat :=
  (urls.map fun url =>
    match net.newRequest url with
    | some _ => 0
    | none => if (setupRequest opts).assignsCheckRedirect then 1 else 0).sum

/-- Verdict line printed for an error record (main.go 166). -/
def errorLine (url : String) : String := "[!] <" ++ url ++ ">: Error making request"

/-- Extra notice printed, before the error line, for a timeout (main.go 164). -/
def timedOutLine (url : String) : String := "[-] <" ++ url ++ ">: Request timed out"

/-- Verdict line for a status-rule match (main.go 172). -/
def statusLine (url : String) (code : Int) : String :=
  "[-] <" ++ url ++ ">: DENIED Status Code (" ++ toString code ++ ") returned"

/-- Verdict line for a redirect-rule match (main.go 180). -/
def redirectLine (url : String) (loc : String) : String :=
  "[-] <" ++ url ++ ">: DENIED Redirect (" ++ loc ++ ") returned"

/-- Verdict line for a body read failure (main.go 190). -/
def readBodyErrLine (url : String) : String := "[!] <" ++ url ++ ">: Could not read body"

/-- Verdict line for a body-rule match (main.go 196). -/
def bodyLine (url : String) (sub : String) : String :=
  "[-] <" ++ url ++ ">: DENIED Body contains (" ++ sub ++ ")"

/-- Verdict line for a record no configured rule matched (main.go 202). -/
def grantedLine (url : String) : String := "[+] <" ++ url ++ ">: GRANTED ACCESS"

/-- Embeds `strings.Contains (s, sub)` on character lists: `sub` occurs
contiguously in `s`. -/
def containsChars (sub : List Char) : List Char → Bool
  | [] => sub.isEmpty
  | c :: rest => sub.isPrefixOf (c :: rest) || containsChars sub rest

/-- Embeds `strings.Contains (body, opts.Body)` (main.go 195). -/
def stringsContains (s sub : String) : Bool := containsChars sub.data s.data

/-- Outcome of one iteration of the Classifier loop: the lines printed,
the number of `Body.Close()` calls the iteration made (the single call at
main.go 188, reached only in the body-rule branch, before the read error
is inspected), and the record sent to the out channel. -/
structure ParseStep where
  lines : List String
  bodyCloses : Nat
  forwarded : PipelineContext
deriving DecidableEq, Repr

/-- Embeds the body of the `parse` loop (main.go 160-204) for one record.
`none` models the nil-pointer dereference `res.Response.StatusCode` would
hit in Go when both `Error` and `Response` are nil. -/
def parseRecord (opts : Options) (r : PipelineContext) : Option ParseStep :=
  match r.Error with
  | some e =>
    some { lines := (if e = HttpError.deadlineExceeded then [timedOutLine r.URL] else [])
             ++ [errorLine r.URL]
           bodyCloses := 0
           forwarded := r }
  | none =>
    match r.Response with
    | none => none
    | some resp =>
      if opts.Status = resp.statusCode then
        some { lines := [statusLine r.URL resp.statusCode], bodyCloses := 0, forwarded := r }
      else if 0 < opts.Redirect.length ∧ resp.location = opts.Redirect then
        some { lines := [redirectLine r.URL resp.location], bodyCloses := 0, forwarded := r }
      else if opts.Body ≠ "" then
        match resp.bodyRead with
        | none => some { lines := [readBodyErrLine r.URL], bodyCloses := 1, forwarded := r }
        | some body =>
          if stringsContains body opts.Body then
            some { lines := [bodyLine r.URL opts.Body], bodyCloses := 1, forwarded := r }
          else
            some { lines := [grantedLine r.URL], bodyCloses := 1, forwarded := r }
      else
        some { lines := [grantedLine r.URL], bodyCloses := 0, forwarded := r }

/-- The final line the Classifier prints for a record: its verdict.  (A
timeout record additionally gets the `timedOutLine` notice printed before
its verdict; the verdict is the last line of the iteration's output.) -/
def verdictLineOf (opts : Options) (r : PipelineContext) : Option String :=
  (parseRecord opts r).bind fun st => st.lines.getLast?

/-- Embeds one iteration of the `cleanup` loop (main.go 144-148): `some b`
means the iteration finished, with `b` recording whether it called
`Response.Body.Close()`; `none` models the nil dereference hit when
`Error` is nil but `Response` is also nil. -/
def cleanupRecord (r : PipelineContext) : Option Bool :=
  match r.Error with
  | some _ => some false
  | none =>
    match r.Response with
    | none => none
    | some _ => some true

/-- Total number of `Body.Close()` calls a record receives across the
whole downstream pipeline: the Classifier's calls (main.go 188) plus the
Cleanup stage's call (main.go 146) on the record `parse` forwarded. -/
def totalBodyCloses (opts : Options) (r : PipelineContext) : Option Nat :=
  (parseRecord opts r).bind fun st =>
    (cleanupRecord st.forwarded).map fun closed => st.bodyCloses + (if closed then 1 else 0)

/-- State of the `utils.Merge` fan-in (pipeline.go 16-37): the suffix of
each input channel not yet moved to the output, the elements sent on the
output channel so far in order, and whether the output channel has been
closed. -/
structure MergeState (V : Type) where
  remaining : List (List V)
  emitted : List V
  closed : Bool

/-- One scheduler step of `utils.Merge`.  `emit` is one `send` goroutine
(pipeline.go 19-24) forwarding the head of its input channel to `out`;
only the head of a single input can move, so order within an input is
preserved by construction of the code.  `close` is the closing goroutine
(pipeline.go 31-34): `wg.Wait` returns only after every `send` goroutine
has drained its input channel and called `wg.Done`, so the step is enabled
exactly when every remaining input suffix is empty. -/
inductive MergeStep {V : Type} : MergeState V → MergeState V → Prop where
  | emit (pre post : List (List V)) (x : V) (rest : List V) (em : List V) :
      MergeStep { remaining := pre ++ (x :: rest) :: post, emitted := em, closed := false }
        { remaining := pre ++ rest :: post, emitted := em ++ [x], closed := false }
  | close (rem : List (List V)) (em : List V) (hall : ∀ l ∈ rem, l = []) :
      MergeStep { remaining := rem, emitted := em, closed := false }
        { remaining := rem, emitted := em, closed := true }

/-- A run of `utils.Merge` on inputs `chs`: reachability from the initial
state by scheduler steps. -/
def MergeRun {V : Type} (chs : List (List V)) (s : MergeState V) : Prop :=
  Relation.ReflTransGen MergeStep { remaining := chs, emitted := [], closed := false } s

/-- Embeds `utils.Split (num, f)` composed with `send` (main.go 251): `num`
workers share the url channel; which worker dequeues which URL is decided
by the channel race, so the per-worker URL shares are a parameter. -/
def splitSend (net : Net) (opts : Options) (assignment : List (List String)) :
    List (List PipelineContext) :=
  assignment.map fun us => send net us opts

/-- A response granting access under the fixtures below: status 200, no
Location header, readable empty-ish body. -/
def respGranted : HttpResponse :=
  { statusCode := 200, location := "", bodyRead := some "welcome" }

/-- A response matching all three detection rules of `optsAll` at once:
status 401, Location `/login`, body containing `denied`. -/
def respAllMatch : HttpResponse :=
  { statusCode := 401, location := "/login", bodyRead := some "access denied here" }

/-- A transport oracle whose requests always build and always succeed with
`respGranted`. -/
def netOk : Net :=
  { newRequest := fun _ => none
    doReq := fun _ _ => (some respGranted, none) }

/-- Fixture configuration with every detection rule set. -/
def optsAll : Options :=
  { Threads := 10, Cookie := "", Auth := "", WaitSeconds := 5
    Status := 401, Redirect := "/login", Body := "denied" }

/-- Fixture configuration with only the body rule set (status left at its
zero default). -/
def optsBodyOnly : Options :=
  { Threads := 10, Cookie := "", Auth := "", WaitSeconds := 5
    Status := 0, Redirect := "", Body := "denied" }

/-- Fixture configuration with no detection rule set. -/
def optsNoRule : Options :=
  { Threads := 10, Cookie := "", Auth := "", WaitSeconds := 5
    Status := 0, Redirect := "", Body := "" }

/-- Fixture configuration whose auth string has no colon separator. -/
def optsBadAuth : Options :=
  { Threads := 10, Cookie := "", Auth := "userpass", WaitSeconds := 5
    Status := 401, Redirect := "", Body := "" }

/-- Fixture configuration with only the status rule set. -/
def optsStatusOnly : Options :=
  { Threads := 10, Cookie := "", Auth := "", WaitSeconds := 5
    Status := 401, Redirect := "", Body := "" }

/-- Fixture record: a successful request whose response matches no rule of
`optsStatusOnly`. -/
def recGranted : PipelineContext :=
  { URL := "http://a/", Response := some respGranted, Error := none }

/-- Fixture record: a successful request whose response matches every rule
of `optsAll`. -/
def recAllMatch : PipelineContext :=
  { URL := "http://a/", Response := some respAllMatch, Error := none }

/-- Fixture record: a request that timed out. -/
def recTimeout : PipelineContext :=
  { URL := "http://t/", Response := none, Error := some HttpError.deadlineExceeded }

/-- Fixture record: a request that failed with a non-timeout error. -/
def recErr : PipelineContext :=
  { URL := "http://e/", Response := none, Error := some (HttpError.other "connection refused") }

/-- Exactly one of the record's `Response` and `Error` fields is set. -/
def exactlyOneSet (r : PipelineContext) : Prop :=
  (r.Response ≠ none ∧ r.Error = none) ∨ (r.Response = none ∧ r.Error ≠ none)

/-- The documented contract of `http.DefaultClient.Do`: exactly one of the
returned response and error is non-nil. -/
def DoContract (net : Net) : Prop :=
  ∀ url setup,
    ((net.doReq url setup).1 ≠ none ∧ (net.doReq url setup).2 = none) ∨
    ((net.doReq url setup).1 = none ∧ (net.doReq url setup).2 ≠ none)

/-- C1: for every record carrying a response the Classifier evaluates the
rules in the fixed priority status, then redirect, then body, stopping at
the first match with the corresponding DENIED verdict, and emits the
GRANTED verdict when no configured rule matches (the body read succeeding
whenever the body rule is configured).  In particular, when the response
status equals the configured status rule the verdict is DENIED-by-status
even if the redirect or body rule would also match — the first conjunct
places no condition on the redirect or body rule. -/
theorem parse_rule_priority (opts : Options) (r : PipelineContext) (resp : HttpResponse)
    (herr : r.Error = none) (hresp : r.Response = some resp) :
    (opts.Status = resp.statusCode →
      parseRecord opts r =
        some { lines := [statusLine r.URL resp.statusCode], bodyCloses := 0, forwarded := r }) ∧
    (opts.Status ≠ resp.statusCode → 0 < opts.Redirect.length → resp.location = opts.Redirect →
      parseRecord opts r =
        some { lines := [redirectLine r.URL resp.location], bodyCloses := 0, forwarded := r }) ∧
    (opts.Status ≠ resp.statusCode → ¬(0 < opts.Redirect.length ∧ resp.location = opts.Redirect) →
      opts.Body ≠ "" → ∀ b, resp.bodyRead = some b → stringsContains b opts.Body = true →
      parseRecord opts r =
        some { lines := [bodyLine r.URL opts.Body], bodyCloses := 1, forwarded := r }) ∧
    (opts.Status ≠ resp.statusCode → ¬(0 < opts.Redirect.length ∧ resp.location = opts.Redirect) →
      opts.Body = "" →
      parseRecord opts r =
        some { lines := [grantedLine r.URL], bodyCloses := 0, forwarded := r }) ∧
    (opts.Status ≠ resp.statusCode → ¬(0 < opts.Redirect.length ∧ resp.location = opts.Redirect) →
      opts.Body ≠ "" → ∀ b, resp.bodyRead = some b → stringsContains b opts.Body = false →
      parseRecord opts r =
        some { lines := [grantedLine r.URL], bodyCloses := 1, forwarded := r }) := by
  refine ⟨?_, ?_, ?_, ?_, ?_⟩
  · intro hs
    simp [parseRecord, herr, hresp, hs]
  · intro hs hrl hloc
    simp [parseRecord, herr, hresp, hs, hrl, hloc]
  · intro hs hred hbody b hb hc
    simp [parseRecord, herr, hresp, hs, hred, hbody, hb, hc]
  · intro hs hred hbody
    simp [parseRecord, herr, hresp, hs, hred, hbody]
  · intro hs hred hbody b hb hc
    simp [parseRecord, herr, hresp, hs, hred, hbody, hb, hc]

/-- Witness for `parse_rule_priority`: a response matching all three rules
of `optsAll` is classified DENIED-by-status. -/
theorem parse_rule_priority_witness :
    parseRecord optsAll recAllMatch =
      some { lines := [statusLine "http://a/" 401], bodyCloses := 0, forwarded := recAllMatch } :=
  (parse_rule_priority optsAll recAllMatch respAllMatch rfl rfl).1 rfl

/-- C5: for a record whose error is set the Classifier prints the timeout
notice exactly when the error is the deadline error, then the error
verdict line, forwards the record unchanged, and evaluates no rule: the
output does not depend on the configured rules or on the response field. -/
theorem parse_error_record (opts : Options) (r : PipelineContext) (e : HttpError)
    (herr : r.Error = some e) :
    parseRecord opts r =
      some { lines := (if e = HttpError.deadlineExceeded then [timedOutLine r.URL] else [])
               ++ [errorLine r.URL]
             bodyCloses := 0
             forwarded := r } ∧
    ∀ (opts2 : Options) (resp2 : Option HttpResponse),
      parseRecord opts2 { URL := r.URL, Response := resp2, Error := r.Error } =
        some { lines := (if e = HttpError.deadlineExceeded then [timedOutLine r.URL] else [])
                 ++ [errorLine r.URL]
               bodyCloses := 0
               forwarded := { URL := r.URL, Response := resp2, Error := r.Error } } := by
  constructor
  · simp [parseRecord, herr]
  · intro opts2 resp2
    simp [parseRecord, herr]

/-- Witness for `parse_error_record`: a timed-out record gets the timeout
notice printed before the error verdict line. -/
theorem parse_error_record_witness :
    parseRecord optsStatusOnly recTimeout =
      some { lines := [timedOutLine "http://t/", errorLine "http://t/"]
             bodyCloses := 0
             forwarded := recTimeout } := by
  have h := (parse_error_record optsStatusOnly recTimeout HttpError.deadlineExceeded rfl).1
  simpa using h

/-- C10: `cleanup` inspects a record's response only when the error field
is nil — for a record whose error is set the outcome is the same whatever
the response field holds — and whenever a nil error comes with a non-nil
response the body-close call completes without dereferencing nil. -/
theorem cleanup_nil_safety (r : PipelineContext) :
    (∀ e, r.Error = some e →
      cleanupRecord r = some false ∧
      ∀ resp2 : Option HttpResponse,
        cleanupRecord { URL := r.URL, Response := resp2, Error := r.Error } = some false) ∧
    (r.Error = none → r.Response ≠ none → cleanupRecord r = some true) := by
  constructor
  · intro e he
    constructor
    · simp [cleanupRecord, he]
    · intro resp2
      simp [cleanupRecord, he]
  · intro he hr
    match hx : r.Response with
    | none => exact absurd hx hr
    | some resp => simp [cleanupRecord, he, hx]

/-- Witness for `cleanup_nil_safety`: an error record is skipped, a
successful record has its body closed. -/
theorem cleanup_nil_safety_witness :
    cleanupRecord recErr = some false ∧ cleanupRecord recGranted = some true :=
  ⟨((cleanup_nil_safety recErr).1 (HttpError.other "connection refused") rfl).1,
   (cleanup_nil_safety recGranted).2 rfl (by decide)⟩

/-- Core of the Requester record invariant: the error paths of
`requestURL` return `(nil, err)` and the success path returns Do's pair,
so under Do's contract exactly one field of each record is set. -/
theorem sendRecord_exactlyOne (net : Net) (opts : Options) (urls : List String)
    (hdo : DoContract net) :
    ∀ r ∈ send net urls opts, exactlyOneSet r := by
  intro r hr
  simp only [send, List.mem_map] at hr
  obtain ⟨url, -, rfl⟩ := hr
  simp only [requestURL, exactlyOneSet]
  cases hn : net.newRequest url with
  | some e => simp [hn]
  | none =>
    cases hs : (setupRequest opts).result with
    | error msg => simp [hn, hs]
    | ok setup =>
      rcases hdo url setup with ⟨h1, h2⟩ | ⟨h1, h2⟩
      · left
        simp [hn, hs, h1, h2]
      · right
        simp [hn, hs, h1, h2]

/-- C4: under the documented contract of `http.DefaultClient.Do`, every
record a Requester produces has exactly one of its response and error
fields set: on success the response is set and the error unset, on failure
(timeout included) the error is set and the response unset. -/
theorem send_exactly_one (net : Net) (opts : Options) (urls : List String)
    (hdo : DoContract net) :
    ∀ r ∈ send net urls opts, exactlyOneSet r :=
  sendRecord_exactlyOne net opts urls hdo

/-- Witness for `send_exactly_one`: the record of the always-succeeding
transport's single request has exactly one field set. -/
theorem send_exactly_one_witness : exactlyOneSet recGranted :=
  send_exactly_one netOk optsStatusOnly ["http://a/"]
    (fun _ _ => Or.inl ⟨by simp [netOk], by simp [netOk]⟩) recGranted (by decide)

/-- C2 counterexample: with only the body rule configured and a response
matching nothing, the Classifier's body branch closes the body (main.go
188) and Cleanup closes it again (main.go 146): the release happens twice,
not exactly once. -/
theorem bodyClose_twice_counterexample :
    totalBodyCloses optsBodyOnly recGranted = some 2 ∧
    totalBodyCloses optsBodyOnly recGranted ≠ some 1 := by decide

/-- C2 amended: every record whose response is set has its body closed at
least once — never zero — but not always exactly once: Cleanup always
closes, and when the Classifier's body branch ran it has already closed,
so the total is two exactly in that case (the second close being the
no-op §7 of the spec allows). -/
theorem bodyClose_at_least_once (opts : Options) (r : PipelineContext) (resp : HttpResponse)
    (herr : r.Error = none) (hresp : r.Response = some resp) :
    ∃ n, totalBodyCloses opts r = some n ∧ 1 ≤ n ∧ n ≤ 2 ∧
      (n = 2 ↔ (opts.Status ≠ resp.statusCode ∧
        ¬(0 < opts.Redirect.length ∧ resp.location = opts.Redirect) ∧ opts.Body ≠ "")) := by
  by_cases hs : opts.Status = resp.statusCode
  · exact ⟨1, by simp [totalBodyCloses, parseRecord, cleanupRecord, herr, hresp, hs]⟩
  · by_cases hred : 0 < opts.Redirect.length ∧ resp.location = opts.Redirect
    · exact ⟨1, by simp [totalBodyCloses, parseRecord, cleanupRecord, herr, hresp, hs, hred]⟩
    · by_cases hbody : opts.Body = ""
      · exact ⟨1, by simp [totalBodyCloses, parseRecord, cleanupRecord, herr, hresp, hs, hred, hbody]⟩
      · match hb : resp.bodyRead with
        | none =>
          exact ⟨2, by simp [totalBodyCloses, parseRecord, cleanupRecord, herr, hresp, hs, hred,
            hbody, hb]⟩
        | some body =>
          cases hc : stringsContains body opts.Body
          · exact ⟨2, by simp [totalBodyCloses, parseRecord, cleanupRecord, herr, hresp, hs, hred,
              hbody, hb, hc]⟩
          · exact ⟨2, by simp [totalBodyCloses, parseRecord, cleanupRecord, herr, hresp, hs, hred,
              hbody, hb, hc]⟩

/-- Witness for `bodyClose_at_least_once` on the double-close record. -/
theorem bodyClose_at_least_once_witness :
    ∃ n, totalBodyCloses optsBodyOnly recGranted = some n ∧ 1 ≤ n ∧ n ≤ 2 ∧
      (n = 2 ↔ (optsBodyOnly.Status ≠ respGranted.statusCode ∧
        ¬(0 < optsBodyOnly.Redirect.length ∧ respGranted.location = optsBodyOnly.Redirect) ∧
        optsBodyOnly.Body ≠ "")) :=
  bodyClose_at_least_once optsBodyOnly recGranted respGranted rfl rfl

/-- C6 counterexample: a configuration whose auth string lacks the colon
passes startup validation untouched, and the request itself then fails
with the auth configuration error: the error arises per request, not at
startup. -/
theorem auth_not_checked_at_startup :
    Options.Validate optsBadAuth = none ∧
    requestURL netOk "http://a/" optsBadAuth =
      (none, some (HttpError.other "auth value is invalid, must be provided as username:password")) := by
  decide

/-- C6 amended: absence of a colon in a non-empty auth string is never a
startup error — `Options.Validate` does not read the auth string at all —
and instead every request whose URL parses fails inside `setupRequest`,
producing the per-request auth error. -/
theorem auth_error_is_per_request (opts : Options) (net : Net) (url : String)
    (hauth : 0 < opts.Auth.length) (hcut : stringsCutColon opts.Auth = none)
    (hnew : net.newRequest url = none) :
    requestURL net url opts =
      (none, some (HttpError.other "auth value is invalid, must be provided as username:password")) ∧
    ∀ a2 : String, Options.Validate { opts with Auth := a2 } = Options.Validate opts := by
  constructor
  · simp [requestURL, hnew, setupRequest, hauth, hcut]
  · intro a2
    rfl

/-- Witness for `auth_error_is_per_request` at the colon-free fixture. -/
theorem auth_error_is_per_request_witness :
    requestURL netOk "http://a/" optsBadAuth =
      (none, some (HttpError.other "auth value is invalid, must be provided as username:password")) ∧
    ∀ a2 : String, Options.Validate { optsBadAuth with Auth := a2 } =
      Options.Validate optsBadAuth :=
  auth_error_is_per_request optsBadAuth netOk "http://a/" (by decide) (by decide) rfl

/-- C7: evaluation of `Options.Validate` at the deciding inputs.  A
configuration with only the body rule set (status at its zero default) is
rejected by the unconditional status range check at main.go 61-63 — even
though the check at main.go 49-51 and its error message promise that any
one of status, redirect or body suffices — while a configuration with no
rule set is rejected, and a status-only configuration is accepted. -/
theorem validate_body_only_rejected :
    Options.Validate optsBodyOnly = some "[!] Status is invalid" ∧
    Options.Validate optsNoRule =
      some "[!] Must supply either status, redirect or body arguments to check" ∧
    Options.Validate optsStatusOnly = none := by decide

/-- C9: the no-follow-redirect policy is not established once before the
pipeline: the assignment to `http.DefaultClient.CheckRedirect` sits inside
`setupRequest` (main.go 117-119), which runs once per request, so a
two-URL run performs the shared-client assignment twice, mid-pipeline. -/
theorem checkRedirect_assigned_per_request :
    checkRedirectAssignments netOk ["http://a/", "http://b/"] optsStatusOnly = 2 ∧
    (setupRequest optsStatusOnly).assignsCheckRedirect = true := by decide

/-- Decomposition of `List.Forall₂` at a distinguished position of its
right-hand list. -/
theorem forall₂_split_middle {α β : Type} {R : α → β → Prop} :
    ∀ (pre : List β) {l : List α} {m : β} {post : List β},
      List.Forall₂ R l (pre ++ m :: post) →
      ∃ l₁ y l₂, l = l₁ ++ y :: l₂ ∧ List.Forall₂ R l₁ pre ∧ R y m ∧ List.Forall₂ R l₂ post := by
  intro pre
  induction pre with
  | nil =>
    intro l m post h
    cases h with
    | cons ha hrest => exact ⟨[], _, _, rfl, List.Forall₂.nil, ha, hrest⟩
  | cons b bs ih =>
    intro l m post h
    cases h with
    | cons ha hrest =>
      obtain ⟨l₁, y, l₂, rfl, h1, h2, h3⟩ := ih hrest
      exact ⟨_ :: l₁, y, l₂, rfl, List.Forall₂.cons ha h1, h2, h3⟩

/-- Membership form of `List.Forall₂`. -/
theorem forall₂_mem_left {α β : Type} {R : α → β → Prop} {l : List α} {m : List β}
    (h : List.Forall₂ R l m) : ∀ a ∈ l, ∃ b ∈ m, R a b := by
  induction h with
  | nil => intro a ha; simp at ha
  | cons hr hrest ih =>
    intro a ha
    rcases List.mem_cons.mp ha with rfl | ha2
    · exact ⟨_, by simp, hr⟩
    · obtain ⟨b, hb, hab⟩ := ih a ha2
      exact ⟨b, by simp [hb], hab⟩

/-- Cardinality of a list-indexed sum of coerced multisets. -/
theorem card_ofList_listsum {V : Type} (chs : List (List V)) :
    Multiset.card ((chs.map Multiset.ofList).sum) = (chs.map List.length).sum := by
  induction chs with
  | nil => simp
  | cons c cs ih => simp [ih]

/-- A member of a list-indexed sum of multisets is a member of a summand. -/
theorem mem_of_mem_listsum {α : Type} {r : α} :
    ∀ {ls : List (Multiset α)}, r ∈ ls.sum → ∃ m ∈ ls, r ∈ m := by
  intro ls
  induction ls with
  | nil => intro h; simp at h
  | cons c cs ih =>
    intro h
    rw [List.sum_cons, Multiset.mem_add] at h
    rcases h with h | h
    · exact ⟨c, by simp, h⟩
    · obtain ⟨m, hm, hr⟩ := ih h
      exact ⟨m, by simp [hm], hr⟩

/-- The invariant the `utils.Merge` scheduler steps preserve: every input
channel equals its consumed prefix followed by its remaining suffix, with
the prefix a subsequence of the output; the output together with the
remaining suffixes holds exactly the input elements; and a closed output
means every input was drained. -/
def MergeInv {V : Type} (chs : List (List V)) (s : MergeState V) : Prop :=
  List.Forall₂ (fun ch rem => ∃ p, ch = p ++ rem ∧ p.Sublist s.emitted) chs s.remaining ∧
  Multiset.ofList s.emitted + (s.remaining.map Multiset.ofList).sum =
    (chs.map Multiset.ofList).sum ∧
  (s.closed = true → ∀ l ∈ s.remaining, l = [])

theorem mergeInv_init {V : Type} (chs : List (List V)) :
    MergeInv chs { remaining := chs, emitted := [], closed := false } := by
  refine ⟨?_, by simp, by simp⟩
  exact List.forall₂_same.mpr (fun ch _ => ⟨[], rfl, List.nil_sublist _⟩)

theorem mergeInv_step {V : Type} {chs : List (List V)} {s t : MergeState V}
    (hstep : MergeStep s t) (hinv : MergeInv chs s) : MergeInv chs t := by
  cases hstep with
  | emit pre post x rest em =>
    obtain ⟨hf, hm, -⟩ := hinv
    obtain ⟨l₁, y, l₂, rfl, h1, h2, h3⟩ := forall₂_split_middle pre hf
    have hweak : ∀ (a b : List V),
        (∃ p, a = p ++ b ∧ p.Sublist em) → ∃ p, a = p ++ b ∧ p.Sublist (em ++ [x]) :=
      fun a b hab => by
        obtain ⟨p, hp, hsub⟩ := hab
        exact ⟨p, hp, hsub.trans (List.sublist_append_left em [x])⟩
    refine ⟨?_, ?_, by simp⟩
    · have w1 := h1.imp hweak
      have w3 := h3.imp hweak
      have w2 : ∃ p, y = p ++ rest ∧ p.Sublist (em ++ [x]) := by
        obtain ⟨p, hp, hsub⟩ := h2
        exact ⟨p ++ [x], by rw [hp]; simp, hsub.append (List.Sublist.refl [x])⟩
      exact List.rel_append w1 (List.Forall₂.cons w2 w3)
    · have e1 : ((pre ++ (x :: rest) :: post).map Multiset.ofList).sum =
          (pre.map Multiset.ofList).sum +
            (Multiset.ofList (x :: rest) + (post.map Multiset.ofList).sum) := by
        simp
      have e2 : ((pre ++ rest :: post).map Multiset.ofList).sum =
          (pre.map Multiset.ofList).sum +
            (Multiset.ofList rest + (post.map Multiset.ofList).sum) := by
        simp
      rw [e1] at hm
      rw [e2, ← hm, ← Multiset.coe_add]
      have c1 : Multiset.ofList (x :: rest) = x ::ₘ Multiset.ofList rest := rfl
      have c2 : (Multiset.ofList [x] : Multiset V) = {x} := rfl
      rw [c1, c2, ← Multiset.singleton_add]
      abel
  | close rem em hall =>
    obtain ⟨hf, hm, -⟩ := hinv
    exact ⟨hf, hm, fun _ => hall⟩

theorem mergeInv_run {V : Type} {chs : List (List V)} {s : MergeState V}
    (hrun : MergeRun chs s) : MergeInv chs s := by
  induction hrun with
  | refl => exact mergeInv_init chs
  | tail hab hbc ih => exact mergeInv_step hbc ih

/-- What holds of any closed reachable state of `utils.Merge`: the output
carries exactly the input elements, its length is the sum of the input
lengths, each input is an in-order subsequence of the output, and every
input was fully drained before the close. -/
theorem mergeRun_closed_facts {V : Type} {chs : List (List V)} {s : MergeState V}
    (hrun : MergeRun chs s) (hclosed : s.closed = true) :
    Multiset.ofList s.emitted = (chs.map Multiset.ofList).sum ∧
    s.emitted.length = (chs.map List.length).sum ∧
    (∀ ch ∈ chs, ch.Sublist s.emitted) ∧
    ∀ l ∈ s.remaining, l = [] := by
  obtain ⟨hf, hm, hc⟩ := mergeInv_run hrun
  have hempty := hc hclosed
  have hzero : (s.remaining.map Multiset.ofList).sum = 0 := by
    apply List.sum_eq_zero
    intro m hmem
    simp only [List.mem_map] at hmem
    obtain ⟨l, hl, rfl⟩ := hmem
    rw [hempty l hl]
    rfl
  have hms : Multiset.ofList s.emitted = (chs.map Multiset.ofList).sum := by
    rw [← hm, hzero, add_zero]
  refine ⟨hms, ?_, ?_, hempty⟩
  · have hcard := congrArg Multiset.card hms
    simpa [card_ofList_listsum] using hcard
  · intro ch hch
    obtain ⟨rem, hrem, p, hp, hsub⟩ := forall₂_mem_left hf ch hch
    rw [hempty rem hrem, List.append_nil] at hp
    rw [hp]
    exact hsub

/-- C3: in any complete run of `utils.Merge`, the output delivers every
element of every input exactly once (its multiset is the sum of the input
multisets, and its length is the sum of the input lengths), the order of
each single input stream is preserved (each input is a subsequence of the
output), and the output is closed only after every input stream has been
fully drained and closed. -/
theorem merge_delivers_exactly_once {V : Type} (chs : List (List V)) (s : MergeState V)
    (hrun : MergeRun chs s) (hclosed : s.closed = true) :
    Multiset.ofList s.emitted = (chs.map Multiset.ofList).sum ∧
    s.emitted.length = (chs.map List.length).sum ∧
    (∀ ch ∈ chs, ch.Sublist s.emitted) ∧
    ∀ l ∈ s.remaining, l = [] :=
  mergeRun_closed_facts hrun hclosed

/-- Witness for `merge_delivers_exactly_once`: the run of `Merge` on inputs
`[1, 2]` and `[3]` that interleaves to `[1, 3, 2]` and then closes. -/
theorem merge_delivers_exactly_once_witness :
    Multiset.ofList [1, 3, 2] = (([[1, 2], [3]] : List (List Nat)).map Multiset.ofList).sum ∧
    ([1, 3, 2] : List Nat).length = (([[1, 2], [3]] : List (List Nat)).map List.length).sum ∧
    (∀ ch ∈ ([[1, 2], [3]] : List (List Nat)), ch.Sublist [1, 3, 2]) ∧
    ∀ l ∈ ([[], []] : List (List Nat)), l = [] := by
  have hrun : MergeRun [[1, 2], [3]]
      { remaining := [[], []], emitted := [1, 3, 2], closed := true } := by
    have s1 := MergeStep.emit (V := Nat) [] [[3]] 1 [2] []
    have s2 := MergeStep.emit (V := Nat) [[2]] [] 3 [] [1]
    have s3 := MergeStep.emit (V := Nat) [] [[]] 2 [] [1, 3]
    have s4 := MergeStep.close (V := Nat) [[], []] [1, 3, 2] (by simp)
    exact Relation.ReflTransGen.head s1 (Relation.ReflTransGen.head s2
      (Relation.ReflTransGen.head s3 (Relation.ReflTransGen.single s4)))
  exact merge_delivers_exactly_once [[1, 2], [3]]
    { remaining := [[], []], emitted := [1, 3, 2], closed := true } hrun rfl

/-- Each record `send` produces carries the URL it was made from. -/
theorem send_preserves_url (net : Net) (opts : Options) (urls : List String) :
    (send net urls opts).map PipelineContext.URL = urls := by
  induction urls with
  | nil => rfl
  | cons u us ih =>
    rcases hru : requestURL net u opts with ⟨resp, err⟩
    simp only [send, List.map_cons, hru] at ih ⊢
    exact congrArg (List.cons u) ih

/-- Multiset form of `send_preserves_url`. -/
theorem send_url_multiset (net : Net) (opts : Options) (us : List String) :
    Multiset.map PipelineContext.URL (Multiset.ofList (send net us opts)) =
      Multiset.ofList us := by
  have h := send_preserves_url net opts us
  calc Multiset.map PipelineContext.URL (Multiset.ofList (send net us opts))
      = Multiset.ofList ((send net us opts).map PipelineContext.URL) := by simp
    _ = Multiset.ofList us := by rw [h]

/-- Coercion of a flattened list of lists is the sum of the coercions. -/
theorem ofList_flatten {α : Type} (ls : List (List α)) :
    Multiset.ofList ls.flatten = (ls.map Multiset.ofList).sum := by
  induction ls with
  | nil => rfl
  | cons c cs ih =>
    simp only [List.flatten_cons, List.map_cons, List.sum_cons, ← ih]
    rw [← Multiset.coe_add]

/-- Mapping distributes over a list-indexed sum of multisets. -/
theorem multiset_map_listsum {α β : Type} (f : α → β) (ls : List (Multiset α)) :
    Multiset.map f ls.sum = (ls.map (Multiset.map f)).sum := by
  induction ls with
  | nil => simp
  | cons c cs ih => simp [ih]

/-- A record with exactly one of response and error set always gets a
verdict line from the Classifier (the last line of its printed output). -/
theorem verdictLineOf_isSome_of_exactlyOne (opts : Options) (r : PipelineContext)
    (h : exactlyOneSet r) : (verdictLineOf opts r).isSome = true := by
  rcases h with ⟨hresp, herr⟩ | ⟨hresp, herr⟩
  · obtain ⟨resp, hx⟩ := Option.ne_none_iff_exists'.mp hresp
    by_cases hs : opts.Status = resp.statusCode
    · simp [verdictLineOf, parseRecord, herr, hx, hs]
    · by_cases hred : 0 < opts.Redirect.length ∧ resp.location = opts.Redirect
      · simp [verdictLineOf, parseRecord, herr, hx, hs, hred]
      · by_cases hbody : opts.Body = ""
        · simp [verdictLineOf, parseRecord, herr, hx, hs, hred, hbody]
        · match hb : resp.bodyRead with
          | none => simp [verdictLineOf, parseRecord, herr, hx, hs, hred, hbody, hb]
          | some body =>
            cases hc : stringsContains body opts.Body <;>
              simp [verdictLineOf, parseRecord, herr, hx, hs, hred, hbody, hb, hc]
  · obtain ⟨e, hx⟩ := Option.ne_none_iff_exists'.mp herr
    simp [verdictLineOf, parseRecord, hx]

/-- A `filterMap` by an everywhere-defined function keeps the length. -/
theorem length_filterMap_of_isSome {α β : Type} (f : α → Option β) :
    ∀ l : List α, (∀ x ∈ l, (f x).isSome = true) → (l.filterMap f).length = l.length := by
  intro l
  induction l with
  | nil => intro h; rfl
  | cons a as ih =>
    intro h
    obtain ⟨b, hb⟩ := Option.isSome_iff_exists.mp (h a (by simp))
    simp [List.filterMap_cons, hb, ih (fun x hx => h x (by simp [hx]))]

/-- C8: for any input of M URLs handed out by the shared channel to the N
workers — each URL consumed by exactly one worker — and any complete run
of the merged pipeline, the Classifier receives exactly one record per
URL and prints exactly M verdict lines (each record's final printed
line), one per URL, independent of N in [1,100]. -/
theorem classifier_one_verdict_per_url (net : Net) (opts : Options) (urls : List String)
    (assignment : List (List String)) (s : MergeState PipelineContext)
    (hdo : DoContract net)
    (hN1 : 1 ≤ assignment.length) (hN2 : assignment.length ≤ 100)
    (hpart : Multiset.ofList assignment.flatten = Multiset.ofList urls)
    (hnodup : urls.Nodup)
    (hrun : MergeRun (splitSend net opts assignment) s)
    (hclosed : s.closed = true) :
    (s.emitted.filterMap (verdictLineOf opts)).length = urls.length ∧
    Multiset.ofList (s.emitted.map PipelineContext.URL) = Multiset.ofList urls ∧
    ∀ u ∈ urls, Multiset.count u (Multiset.ofList (s.emitted.map PipelineContext.URL)) = 1 := by
  have hms := (mergeRun_closed_facts hrun hclosed).1
  have hurl : Multiset.ofList (s.emitted.map PipelineContext.URL) = Multiset.ofList urls := by
    have h1 : Multiset.ofList (s.emitted.map PipelineContext.URL) =
        Multiset.map PipelineContext.URL (Multiset.ofList s.emitted) := by
      simp
    rw [h1, hms, multiset_map_listsum]
    have h2 : ((splitSend net opts assignment).map Multiset.ofList).map
        (Multiset.map PipelineContext.URL) = assignment.map Multiset.ofList := by
      simp only [splitSend, List.map_map, Function.comp_def]
      simp only [send_url_multiset]
    rw [h2, ← ofList_flatten, hpart]
  have hlen : s.emitted.length = urls.length := by
    have hcard := congrArg Multiset.card hurl
    simpa using hcard
  refine ⟨?_, hurl, ?_⟩
  · have hwf : ∀ r ∈ s.emitted, ((verdictLineOf opts) r).isSome = true := by
      intro r hr
      have hrm : r ∈ Multiset.ofList s.emitted := by simpa using hr
      rw [hms] at hrm
      obtain ⟨m, hm, hrm2⟩ := mem_of_mem_listsum hrm
      simp only [splitSend, List.map_map, List.mem_map, Function.comp_def] at hm
      obtain ⟨us, -, rfl⟩ := hm
      have hmem : r ∈ send net us opts := by simpa using hrm2
      exact verdictLineOf_isSome_of_exactlyOne opts r
        (sendRecord_exactlyOne net opts us hdo r hmem)
    rw [length_filterMap_of_isSome (verdictLineOf opts) s.emitted hwf, hlen]
  · intro u hu
    rw [hurl]
    exact Multiset.count_eq_one_of_mem (by simpa using hnodup) (by simpa using hu)

/-- Fixture record: the successful request to the second URL. -/
def recGrantedB : PipelineContext :=
  { URL := "http://b/", Response := some respGranted, Error := none }

/-- Witness for `classifier_one_verdict_per_url`: two URLs, two workers,
the interleaving delivering worker 1 first. -/
theorem classifier_one_verdict_per_url_witness :
    (([recGranted, recGrantedB].filterMap
        (verdictLineOf optsStatusOnly)).length = 2) ∧
    Multiset.ofList ([recGranted, recGrantedB].map PipelineContext.URL) =
      Multiset.ofList ["http://a/", "http://b/"] ∧
    ∀ u ∈ ["http://a/", "http://b/"],
      Multiset.count u
        (Multiset.ofList ([recGranted, recGrantedB].map PipelineContext.URL)) = 1 := by
  have hsplit : splitSend netOk optsStatusOnly [["http://a/"], ["http://b/"]] =
      [[recGranted], [recGrantedB]] := by decide
  have hrun : MergeRun (splitSend netOk optsStatusOnly [["http://a/"], ["http://b/"]])
      { remaining := [[], []], emitted := [recGranted, recGrantedB], closed := true } := by
    rw [MergeRun, hsplit]
    have s1 := MergeStep.emit (V := PipelineContext) [] [[recGrantedB]] recGranted [] []
    have s2 := MergeStep.emit (V := PipelineContext) [[]] [] recGrantedB [] [recGranted]
    have s3 := MergeStep.close (V := PipelineContext) [[], []] [recGranted, recGrantedB]
      (by simp)
    exact Relation.ReflTransGen.head s1 (Relation.ReflTransGen.head s2
      (Relation.ReflTransGen.single s3))
  exact classifier_one_verdict_per_url netOk optsStatusOnly ["http://a/", "http://b/"]
    [["http://a/"], ["http://b/"]]
    { remaining := [[], []], emitted := [recGranted, recGrantedB], closed := true }
    (fun _ _ => Or.inl ⟨by simp [netOk], by simp [netOk]⟩)
    (by decide) (by decide) rfl (by decide) hrun rfl
